import Mathlib

/-!
Verification of the storage configuration core of delta-rs
(`rust/src/storage/config.rs`): URL classification into backend kinds,
storage-option handling with environment overlays, provider-scoped typed
option views, backend factory dispatch, and the URL path-prefix wrapper.

The Rust code is shallowly embedded: hash maps become association lists in
iteration order, `Result` becomes `Except`, the process environment becomes a
function `String → Option String`, and the external provider builders become
explicit records of the configuration calls made on them.
-/

namespace DeltaRs

/-- Boolean test that `needle` is a prefix of the second list
(character-list counterpart of Rust `str::starts_with`). -/
def isPrefixOfCL : List Char → List Char → Bool
  | [], _ => true
  | _ :: _, [] => false
  | a :: as, b :: bs => a = b && isPrefixOfCL as bs

/-- Boolean test that `needle` occurs contiguously inside the second list. -/
def isInfixOfCL (needle : List Char) : List Char → Bool
  | [] => isPrefixOfCL needle []
  | b :: bs => isPrefixOfCL needle (b :: bs) || isInfixOfCL needle bs

/-- Substring containment on strings: Rust `str::contains` with a string
pattern. -/
def str_contains (hay needle : String) : Bool :=
  isInfixOfCL needle.data hay.data

/-- ASCII lower-casing: Rust `str::to_ascii_lowercase` (Lean `Char.toLower`
also lower-cases exactly the ASCII range). -/
def to_ascii_lowercase (s : String) : String :=
  ⟨s.data.map Char.toLower⟩

/-- `HashMap::insert` on the association-list model of a hash map: replace the
value of an existing key in place, otherwise append the new entry. -/
def hmInsert {α β : Type} [DecidableEq α] : List (α × β) → α → β → List (α × β)
  | [], k, v => [(k, v)]
  | p :: rest, k, v => if p.1 = k then (k, v) :: rest else p :: hmInsert rest k v

/-- `HashMap::get` on the association-list model. -/
def hmGet {α β : Type} [DecidableEq α] : List (α × β) → α → Option β
  | [], _ => none
  | p :: rest, k => if p.1 = k then some p.2 else hmGet rest k

/-- `collect::<HashMap<_, _>>()` on the association-list model: fold the
entries into an empty map with `hmInsert`, so a later entry for the same key
overwrites an earlier one. -/
def hmCollect {α β : Type} [DecidableEq α] (l : List (α × β)) : List (α × β) :=
  l.foldl (fun m p => hmInsert m p.1 p.2) []

/-- Number of entries of the map whose key is `k`. -/
def countKey {α β : Type} [DecidableEq α] (m : List (α × β)) (k : α) : Nat :=
  m.countP (fun p => decide (p.1 = k))

/-- A parsed URL, restricted to the accessors `config.rs` uses: `scheme()`,
`host_str()`, `path()` and `as_str()` of the external `url::Url` type. -/
structure Url where
  scheme : String
  host : Option String
  path : String
  urlStr : String
deriving DecidableEq

/-- `url.host_str().unwrap_or_default()`. -/
def Url.host_str (u : Url) : String :=
  u.host.getD ""

/-- The error variants of `DeltaTableError` reachable from `config.rs`. -/
inductive DeltaTableError where
  | Generic (msg : String)
  | MissingFeature (feature : String) (url : String)
deriving DecidableEq

/-- `DeltaResult<T>` from the crate root. -/
abbrev DeltaResult (α : Type) := Except DeltaTableError α

/-- The backend kinds of `ObjectStoreKind`. -/
inductive ObjectStoreKind where
  | Local
  | InMemory
  | S3
  | Google
  | Azure
  | Hdfs
deriving DecidableEq

/-- `ObjectStoreKind::parse_url`: classify a URL by scheme, disambiguating
`https` hosts by substring containment. -/
def ObjectStoreKind.parse_url (url : Url) : DeltaResult ObjectStoreKind :=
  match url.scheme with
  | "file" => .ok .Local
  | "memory" => .ok .InMemory
  | "az" | "abfs" | "abfss" | "azure" | "wasb" | "adl" => .ok .Azure
  | "s3" | "s3a" => .ok .S3
  | "gs" => .ok .Google
  | "hdfs" => .ok .Hdfs
  | "https" =>
    if str_contains url.host_str "amazonaws.com" then .ok .S3
    else if str_contains url.host_str "dfs.core.windows.net"
        || str_contains url.host_str "blob.core.windows.net" then .ok .Azure
    else .error (.Generic ("unsupported url: " ++ url.urlStr))
  | _ => .error (.Generic ("unsupported url: " ++ url.urlStr))

/-- `StorageOptions::new`: overlay the three `allow_http` environment
variables, checked in this fixed order, onto the raw option bag. The process
environment is passed explicitly as `env`. -/
def StorageOptions.new (env : String → Option String)
    (options : List (String × String)) : List (String × String) :=
  let options :=
    match env "AZURE_STORAGE_ALLOW_HTTP" with
    | some value => hmInsert options "allow_http" value
    | none => options
  let options :=
    match env "AZURE_STORAGE_USE_HTTP" with
    | some value => hmInsert options "allow_http" value
    | none => options
  let options :=
    match env "AWS_STORAGE_ALLOW_HTTP" with
    | some value => hmInsert options "allow_http" value
    | none => options
  options

/-- `StorageOptions::allow_http`: any key whose ASCII-lower-cased form
contains the substring `allow_http` and whose value the truthiness predicate
accepts. `str_is_truthy` lives in `storage/utils.rs`, outside this core; the
spec treats it as a black box, so it is passed explicitly as `isTruthy`. -/
def StorageOptions.allow_http (isTruthy : String → Bool)
    (bag : List (String × String)) : Bool :=
  bag.any (fun p =>
    str_contains (to_ascii_lowercase p.1) "allow_http" && isTruthy p.2)

/-- The shared shape of `as_azure_options` / `as_s3_options` /
`as_gcs_options`: lower-case each raw key, try to parse it into the
provider's typed key vocabulary via `fromStr`, silently drop keys that fail
to parse, and collect the survivors into a map. -/
def typedOptions {κ : Type} [DecidableEq κ] (fromStr : String → Option κ)
    (bag : List (String × String)) : List (κ × String) :=
  hmCollect (bag.filterMap (fun p =>
    (fromStr (to_ascii_lowercase p.1)).map (fun k => (k, p.2))))

/-- Modelled from the spec: the canonical typed key vocabulary of the external
S3 provider builder (`AmazonS3ConfigKey` of the `object_store` crate, declared
but not defined in this repository). Only a fragment of the vocabulary is
modelled; every string outside it fails to parse, as `bogus_key` does in the
spec's example. -/
inductive AmazonS3ConfigKey where
  | AccessKeyId
  | SecretAccessKey
  | Region
  | Bucket
  | Endpoint
  | Token
deriving DecidableEq

/-- Modelled from the spec: `AmazonS3ConfigKey::from_str` on the modelled
fragment of the vocabulary, `aws_access_key_id` included as the spec's
example requires and `bogus_key` excluded. -/
def amazonS3ConfigKeyFromStr : String → Option AmazonS3ConfigKey
  | "aws_access_key_id" | "access_key_id" => some .AccessKeyId
  | "aws_secret_access_key" | "secret_access_key" => some .SecretAccessKey
  | "aws_region" | "region" => some .Region
  | "aws_bucket" | "bucket" | "bucket_name" => some .Bucket
  | "aws_endpoint" | "endpoint" => some .Endpoint
  | "aws_session_token" | "aws_token" | "token" => some .Token
  | _ => none

/-- Modelled from the spec: fragment of the external Azure typed key
vocabulary (`AzureConfigKey` of the `object_store` crate). -/
inductive AzureConfigKey where
  | AccountName
  | AccessKey
  | SasKey
deriving DecidableEq

/-- Modelled from the spec: `AzureConfigKey::from_str` on the modelled
fragment. -/
def azureConfigKeyFromStr : String → Option AzureConfigKey
  | "azure_storage_account_name" | "account_name" => some .AccountName
  | "azure_storage_account_key" | "account_key" | "access_key" => some .AccessKey
  | "azure_storage_sas_key" | "sas_key" => some .SasKey
  | _ => none

/-- Modelled from the spec: fragment of the external Google typed key
vocabulary (`GoogleConfigKey` of the `object_store` crate). -/
inductive GoogleConfigKey where
  | ServiceAccount
  | Bucket
deriving DecidableEq

/-- Modelled from the spec: `GoogleConfigKey::from_str` on the modelled
fragment. -/
def googleConfigKeyFromStr : String → Option GoogleConfigKey
  | "google_service_account" | "service_account" => some .ServiceAccount
  | "google_bucket" | "bucket" | "bucket_name" => some .Bucket
  | _ => none

/-- `StorageOptions::as_s3_options`. -/
def StorageOptions.as_s3_options (bag : List (String × String)) :
    List (AmazonS3ConfigKey × String) :=
  typedOptions amazonS3ConfigKeyFromStr bag

/-- `StorageOptions::as_azure_options`. -/
def StorageOptions.as_azure_options (bag : List (String × String)) :
    List (AzureConfigKey × String) :=
  typedOptions azureConfigKeyFromStr bag

/-- `StorageOptions::as_gcs_options`. -/
def StorageOptions.as_gcs_options (bag : List (String × String)) :
    List (GoogleConfigKey × String) :=
  typedOptions googleConfigKeyFromStr bag

/-- Split a character list at every slash (`String::splitOn "/"` restricted
to the slash separator, written on character lists so that it evaluates). -/
def splitSlash : List Char → List (List Char)
  | [] => [[]]
  | c :: rest =>
    let r := splitSlash rest
    if c = '/' then [] :: r
    else
      match r with
      | [] => [[c]]
      | seg :: segs => (c :: seg) :: segs

/-- `object_store::path::Path::from` on the fragment this core exercises:
split on slashes and drop empty segments, so leading, trailing and duplicate
slashes are ignored. A normalized path is its list of segments. -/
def pathFrom (s : String) : List String :=
  ((splitSlash s.data).map (fun cs => String.mk cs)).filter (fun seg => seg ≠ "")

/-- The root path, `Path::from "/"`. -/
def rootPath : List String :=
  pathFrom "/"

/-- Result of `url_prefix_handler`: the client either unwrapped or wrapped in
a `PrefixStore` bound to a normalized path. -/
inductive Handle (σ : Type) where
  | raw (store : σ)
  | prefixed (pfx : List String) (store : σ)
deriving DecidableEq

/-- `ObjectStoreKind::url_prefix_handler`: wrap the client in a prefix
decorator bound to the URL's normalized path unless that path is the root. -/
def url_prefix_handler {σ : Type} (store : σ) (storage_url : Url) : Handle σ :=
  if pathFrom storage_url.path ≠ pathFrom "/" then
    Handle.prefixed (pathFrom storage_url.path) store
  else
    Handle.raw store

/-- Which optional capability modules (cargo features) are enabled in the
build: `s3` stands for `s3`/`s3-native-tls`, `gcs` for the Google module. -/
structure Features where
  s3 : Bool
  azure : Bool
  gcs : Bool
  hdfs : Bool
deriving DecidableEq

/-- The configuration calls made on an external provider builder
(`AmazonS3Builder` / `MicrosoftAzureBuilder` / `GoogleCloudStorageBuilder`),
recorded as data: whether it started from environment-derived defaults, the
explicit URL, the typed option overlay, and the explicit http-allowed flag
(`none` when `with_allow_http` was never called). -/
structure BuilderState (κ : Type) where
  from_env : Bool
  url : Option String
  options : List (κ × String)
  allow_http : Option Bool
deriving DecidableEq

/-- `Builder::from_env()`: environment-derived defaults, nothing else set. -/
def from_env_builder (κ : Type) : BuilderState κ :=
  ⟨true, none, [], none⟩

/-- `Builder::with_url`. -/
def BuilderState.with_url {κ : Type} (b : BuilderState κ) (u : String) :
    BuilderState κ :=
  ⟨b.from_env, some u, b.options, b.allow_http⟩

/-- `Builder::try_with_options`: overlay the typed option view. -/
def BuilderState.try_with_options {κ : Type} (b : BuilderState κ)
    (o : List (κ × String)) : BuilderState κ :=
  ⟨b.from_env, b.url, o, b.allow_http⟩

/-- `Builder::with_allow_http`. -/
def BuilderState.with_allow_http {κ : Type} (b : BuilderState κ) (v : Bool) :
    BuilderState κ :=
  ⟨b.from_env, b.url, b.options, some v⟩

/-- The concrete store constructed by `into_impl`, recorded as data. The `s3`
variant carries the builder state and the raw bag handed to
`S3StorageOptions::from_map`; `hdfs` carries the URL string handed to
`HadoopFileSystem::new`. -/
inductive StoreImpl where
  | fileStorage
  | inMemory
  | s3 (builder : BuilderState AmazonS3ConfigKey) (s3opts : List (String × String))
  | azure (builder : BuilderState AzureConfigKey)
  | google (builder : BuilderState GoogleConfigKey)
  | hdfs (url : String)
deriving DecidableEq

/-- `ObjectStoreKind::into_impl`. The cargo feature set `f`, the truthiness
predicate and the external `HadoopFileSystem::new` (which may yield nothing)
are passed explicitly; `_options` is the `StorageOptions` bag after
`options.into()`. -/
def ObjectStoreKind.into_impl (f : Features) (isTruthy : String → Bool)
    (hdfs_new : String → Option Unit) (kind : ObjectStoreKind)
    (storage_url : Url) (_options : List (String × String)) :
    DeltaResult (Handle StoreImpl) :=
  match kind with
  | .Local => .ok (url_prefix_handler StoreImpl.fileStorage storage_url)
  | .InMemory => .ok (url_prefix_handler StoreImpl.inMemory storage_url)
  | .S3 =>
    if f.s3 then
      let amazon_s3 :=
        (((from_env_builder AmazonS3ConfigKey).with_url
            storage_url.urlStr).try_with_options
          (StorageOptions.as_s3_options _options)).with_allow_http
          (StorageOptions.allow_http isTruthy _options)
      .ok (url_prefix_handler (StoreImpl.s3 amazon_s3 _options) storage_url)
    else .error (.MissingFeature "s3" storage_url.urlStr)
  | .Azure =>
    if f.azure then
      let store :=
        (((from_env_builder AzureConfigKey).with_url
            storage_url.urlStr).try_with_options
          (StorageOptions.as_azure_options _options)).with_allow_http
          (StorageOptions.allow_http isTruthy _options)
      .ok (url_prefix_handler (StoreImpl.azure store) storage_url)
    else .error (.MissingFeature "azure" storage_url.urlStr)
  | .Google =>
    if f.gcs then
      let store :=
        ((from_env_builder GoogleConfigKey).with_url
            storage_url.urlStr).try_with_options
          (StorageOptions.as_gcs_options _options)
      .ok (url_prefix_handler (StoreImpl.google store) storage_url)
    else .error (.MissingFeature "gcs" storage_url.urlStr)
  | .Hdfs =>
    if f.hdfs then
      match hdfs_new storage_url.urlStr with
      | some _ =>
        .ok (url_prefix_handler (StoreImpl.hdfs storage_url.urlStr) storage_url)
      | none =>
        .error (.Generic
          ("failed to create HadoopFileSystem for " ++ storage_url.urlStr))
    else .error (.MissingFeature "hdfs" storage_url.urlStr)

/-- Modelled from the spec: the Path-Prefix Decorator
(`object_store::prefix::PrefixStore`, external to this repository) prepends
its bound prefix to every caller-supplied path. -/
def full_path (pfx p : List String) : List String :=
  pfx ++ p

/-- Modelled from the spec: the Path-Prefix Decorator strips its bound prefix
from every path appearing in a result; a path outside the prefix's scope has
no stripped form. -/
def strip_path : List String → List String → Option (List String)
  | [], p => some p
  | _ :: _, [] => none
  | a :: pfx, b :: p => if a = b then strip_path pfx p else none

/-- Modelled from the spec: a read through the prefix-wrapped handle forwards
the prefixed path to the inner client, here an abstract map from normalized
paths to contents. -/
def prefixed_get (pfx : List String) (inner : List String → Option String)
    (loc : List String) : Option String :=
  inner (full_path pfx loc)

/-! Helper lemmas about the association-list hash-map model. -/

theorem hmGet_hmInsert_self {α β : Type} [DecidableEq α] (m : List (α × β))
    (k : α) (v : β) : hmGet (hmInsert m k v) k = some v := by
  induction m with
  | nil => simp [hmInsert, hmGet]
  | cons p rest ih =>
    by_cases h : p.1 = k
    · simp [hmInsert, hmGet, h]
    · simp [hmInsert, hmGet, h, ih]

theorem hmGet_hmInsert_ne {α β : Type} [DecidableEq α] (m : List (α × β))
    (k k0 : α) (v : β) (h : k0 ≠ k) :
    hmGet (hmInsert m k v) k0 = hmGet m k0 := by
  have hne : ¬k = k0 := fun hh => h hh.symm
  induction m with
  | nil => simp [hmInsert, hmGet, hne]
  | cons p rest ih =>
    by_cases hp : p.1 = k
    · have hp0 : ¬p.1 = k0 := by rw [hp]; exact hne
      simp [hmInsert, hmGet, hp, hne, hp0]
    · by_cases hk0 : p.1 = k0
      · simp [hmInsert, hmGet, hp, hk0, h]
      · simp [hmInsert, hmGet, hp, hk0, ih]

theorem isSome_hmGet_hmInsert {α β : Type} [DecidableEq α] (m : List (α × β))
    (k k0 : α) (v : β) (h : (hmGet m k0).isSome = true) :
    (hmGet (hmInsert m k v) k0).isSome = true := by
  by_cases hk : k0 = k
  · rw [hk, hmGet_hmInsert_self]; rfl
  · rw [hmGet_hmInsert_ne m k k0 v hk]; exact h

theorem mem_hmInsert {α β : Type} [DecidableEq α] (m : List (α × β))
    (k : α) (v : β) (x : α × β) (hx : x ∈ hmInsert m k v) :
    x ∈ m ∨ x = (k, v) := by
  induction m with
  | nil => simp [hmInsert] at hx; exact Or.inr hx
  | cons p rest ih =>
    by_cases h : p.1 = k
    · simp [hmInsert, h] at hx
      rcases hx with hx | hx
      · exact Or.inr (by rw [hx])
      · exact Or.inl (List.mem_cons_of_mem _ hx)
    · simp [hmInsert, h] at hx
      rcases hx with hx | hx
      · exact Or.inl (by rw [hx]; exact List.mem_cons_self _ _)
      · rcases ih hx with h2 | h2
        · exact Or.inl (List.mem_cons_of_mem _ h2)
        · exact Or.inr h2

theorem mem_keys_hmInsert {α β : Type} [DecidableEq α] (m : List (α × β))
    (k : α) (v : β) (k0 : α) (hk0 : k0 ∈ (hmInsert m k v).map Prod.fst) :
    k0 ∈ m.map Prod.fst ∨ k0 = k := by
  rcases List.mem_map.mp hk0 with ⟨x, hx, hfst⟩
  rcases mem_hmInsert m k v x hx with h | h
  · exact Or.inl (List.mem_map.mpr ⟨x, h, hfst⟩)
  · rw [h] at hfst
    exact Or.inr hfst.symm

theorem nodup_keys_hmInsert {α β : Type} [DecidableEq α] (m : List (α × β))
    (k : α) (v : β) (hm : (m.map Prod.fst).Nodup) :
    ((hmInsert m k v).map Prod.fst).Nodup := by
  induction m with
  | nil => simp [hmInsert]
  | cons p rest ih =>
    simp only [List.map_cons, List.nodup_cons] at hm
    by_cases h : p.1 = k
    · simp only [hmInsert, h, if_pos]
      simp only [List.map_cons, List.nodup_cons]
      refine ⟨?_, hm.2⟩
      rw [← h]; exact hm.1
    · simp only [hmInsert, h, if_neg, not_false_iff]
      simp only [List.map_cons, List.nodup_cons]
      refine ⟨?_, ih hm.2⟩
      intro hmem
      rcases mem_keys_hmInsert rest k v p.1 hmem with h2 | h2
      · exact hm.1 h2
      · exact h h2

theorem mem_foldl_hmInsert {α β : Type} [DecidableEq α] (l : List (α × β)) :
    ∀ (m : List (α × β)) (x : α × β),
      x ∈ l.foldl (fun m p => hmInsert m p.1 p.2) m → x ∈ m ∨ x ∈ l := by
  induction l with
  | nil => intro m x hx; exact Or.inl hx
  | cons p rest ih =>
    intro m x hx
    simp only [List.foldl_cons] at hx
    rcases ih (hmInsert m p.1 p.2) x hx with h | h
    · rcases mem_hmInsert m p.1 p.2 x h with h2 | h2
      · exact Or.inl h2
      · exact Or.inr (by rw [h2]; exact List.mem_cons_self _ _)
    · exact Or.inr (List.mem_cons_of_mem _ h)

theorem isSome_hmGet_foldl {α β : Type} [DecidableEq α] (l : List (α × β)) :
    ∀ (m : List (α × β)) (k : α) (v : β),
      ((k, v) ∈ l ∨ (hmGet m k).isSome = true) →
      (hmGet (l.foldl (fun m p => hmInsert m p.1 p.2) m) k).isSome = true := by
  induction l with
  | nil =>
    intro m k v h
    rcases h with h | h
    · exact absurd h (List.not_mem_nil _)
    · exact h
  | cons p rest ih =>
    intro m k v h
    simp only [List.foldl_cons]
    rcases h with h | h
    · rcases List.mem_cons.mp h with h2 | h2
      · refine ih (hmInsert m p.1 p.2) k v (Or.inr ?_)
        have : p.1 = k := by rw [← h2]
        rw [this, hmGet_hmInsert_self]; rfl
      · exact ih (hmInsert m p.1 p.2) k v (Or.inl h2)
    · exact ih (hmInsert m p.1 p.2) k v
        (Or.inr (isSome_hmGet_hmInsert m p.1 k p.2 h))

theorem nodup_keys_foldl {α β : Type} [DecidableEq α] (l : List (α × β)) :
    ∀ (m : List (α × β)), (m.map Prod.fst).Nodup →
      ((l.foldl (fun m p => hmInsert m p.1 p.2) m).map Prod.fst).Nodup := by
  induction l with
  | nil => intro m hm; exact hm
  | cons p rest ih =>
    intro m hm
    simp only [List.foldl_cons]
    exact ih (hmInsert m p.1 p.2) (nodup_keys_hmInsert m p.1 p.2 hm)

theorem hmGet_eq_some_mem {α β : Type} [DecidableEq α] (m : List (α × β))
    (k : α) (v : β) (h : hmGet m k = some v) : (k, v) ∈ m := by
  induction m with
  | nil => simp [hmGet] at h
  | cons p rest ih =>
    by_cases hp : p.1 = k
    · simp only [hmGet, hp, if_pos] at h
      have : p = (k, v) := by
        rcases p with ⟨a, b⟩
        simp at hp h
        rw [hp, h]
      rw [← this]; exact List.mem_cons_self _ _
    · simp only [hmGet, hp, if_neg, not_false_iff] at h
      exact List.mem_cons_of_mem _ (ih h)

theorem isSome_hmGet_exists {α β : Type} [DecidableEq α] (m : List (α × β))
    (k : α) (h : (hmGet m k).isSome = true) : ∃ v, hmGet m k = some v := by
  rcases hv : hmGet m k with _ | v
  · rw [hv] at h; simp at h
  · exact ⟨v, rfl⟩

theorem countKey_le_one_of_nodup {α β : Type} [DecidableEq α]
    (m : List (α × β)) (k : α) (hm : (m.map Prod.fst).Nodup) :
    countKey m k ≤ 1 := by
  induction m with
  | nil => simp [countKey]
  | cons p rest ih =>
    simp only [List.map_cons, List.nodup_cons] at hm
    simp only [countKey, List.countP_cons]
    by_cases h : p.1 = k
    · have hzero : rest.countP (fun p => decide (p.1 = k)) = 0 := by
        rw [List.countP_eq_zero]
        intro a ha
        simp only [decide_eq_true_eq]
        intro hak
        exact hm.1 (by rw [← h] at hak; exact hak ▸ List.mem_map.mpr ⟨a, ha, hak.symm ▸ rfl⟩)
      simp [countKey] at ih
      simp [h, hzero]
    · have := ih hm.2
      simp only [countKey] at this
      simp [h]
      exact this

theorem countKey_pos_of_mem {α β : Type} [DecidableEq α] (m : List (α × β))
    (k : α) (v : β) (h : (k, v) ∈ m) : 0 < countKey m k := by
  rw [countKey, List.countP_pos_iff]
  exact ⟨(k, v), h, by simp⟩

/-! Helper lemmas about substring containment and `parse_url`. -/

theorem isPrefixOfCL_refl (l : List Char) : isPrefixOfCL l l = true := by
  induction l with
  | nil => rfl
  | cons a as ih => simp [isPrefixOfCL, ih]

theorem isInfixOfCL_append_self (h n : List Char) :
    isInfixOfCL n (h ++ n) = true := by
  induction h with
  | nil =>
    cases n with
    | nil => rfl
    | cons b bs => simp [isInfixOfCL, isPrefixOfCL_refl]
  | cons c h ih => simp [isInfixOfCL, ih]

theorem str_contains_append_self (pre s : String) :
    str_contains (pre ++ s) s = true := by
  rcases pre with ⟨d1⟩
  rcases s with ⟨d2⟩
  exact isInfixOfCL_append_self d1 d2

theorem parse_url_of_scheme_https (u : Url) (h : u.scheme = "https") :
    ObjectStoreKind.parse_url u =
      (if str_contains u.host_str "amazonaws.com" then .ok .S3
       else if str_contains u.host_str "dfs.core.windows.net"
           || str_contains u.host_str "blob.core.windows.net" then .ok .Azure
       else .error (.Generic ("unsupported url: " ++ u.urlStr))) := by
  unfold ObjectStoreKind.parse_url
  rw [h]
  rfl

theorem parse_url_default (u : Url)
    (h : u.scheme ∉ ["file", "memory", "az", "abfs", "abfss", "azure", "wasb",
      "adl", "s3", "s3a", "gs", "hdfs", "https"]) :
    ObjectStoreKind.parse_url u =
      .error (.Generic ("unsupported url: " ++ u.urlStr)) := by
  unfold ObjectStoreKind.parse_url
  split <;> simp_all

/-- Concrete URL for the spec's example `parse_url("ftp://x")` (the `url`
crate normalizes the special `ftp` scheme to `ftp://x/`). -/
def ftpUrl : Url :=
  ⟨"ftp", some "x", "/", "ftp://x/"⟩

/-- Claim C1: `parse_url` classifies every URL exactly per the scheme table
(`file` → Local, `memory` → InMemory, the six Azure schemes → Azure,
`s3`/`s3a` → S3, `gs` → Google, `hdfs` → Hdfs); an `https` URL yields S3 when
its host contains the substring `amazonaws.com` and Azure when it contains
`dfs.core.windows.net` or `blob.core.windows.net`; every other URL fails with
an unsupported-url error containing the literal URL string, as
`parse_url("ftp://x")` does. -/
theorem claim_C1_parse_url_scheme_table : ∀ u : Url,
    (u.scheme = "file" → ObjectStoreKind.parse_url u = .ok .Local) ∧
    (u.scheme = "memory" → ObjectStoreKind.parse_url u = .ok .InMemory) ∧
    (u.scheme ∈ ["az", "abfs", "abfss", "azure", "wasb", "adl"] →
      ObjectStoreKind.parse_url u = .ok .Azure) ∧
    (u.scheme ∈ ["s3", "s3a"] → ObjectStoreKind.parse_url u = .ok .S3) ∧
    (u.scheme = "gs" → ObjectStoreKind.parse_url u = .ok .Google) ∧
    (u.scheme = "hdfs" → ObjectStoreKind.parse_url u = .ok .Hdfs) ∧
    (u.scheme = "https" → str_contains u.host_str "amazonaws.com" = true →
      ObjectStoreKind.parse_url u = .ok .S3) ∧
    (u.scheme = "https" → str_contains u.host_str "amazonaws.com" = false →
      (str_contains u.host_str "dfs.core.windows.net" = true ∨
        str_contains u.host_str "blob.core.windows.net" = true) →
      ObjectStoreKind.parse_url u = .ok .Azure) ∧
    (u.scheme = "https" → str_contains u.host_str "amazonaws.com" = false →
      str_contains u.host_str "dfs.core.windows.net" = false →
      str_contains u.host_str "blob.core.windows.net" = false →
      ObjectStoreKind.parse_url u =
        .error (.Generic ("unsupported url: " ++ u.urlStr))) ∧
    (u.scheme ∉ ["file", "memory", "az", "abfs", "abfss", "azure", "wasb",
        "adl", "s3", "s3a", "gs", "hdfs", "https"] →
      ObjectStoreKind.parse_url u =
        .error (.Generic ("unsupported url: " ++ u.urlStr))) ∧
    (str_contains ("unsupported url: " ++ u.urlStr) u.urlStr = true) ∧
    (ObjectStoreKind.parse_url ftpUrl =
        .error (.Generic "unsupported url: ftp://x/") ∧
      str_contains "unsupported url: ftp://x/" "ftp://x" = true) := by
  intro u
  refine ⟨?_, ?_, ?_, ?_, ?_, ?_, ?_, ?_, ?_, ?_, ?_, ?_, ?_⟩
  · intro h; unfold ObjectStoreKind.parse_url; rw [h]; rfl
  · intro h; unfold ObjectStoreKind.parse_url; rw [h]; rfl
  · intro h
    simp only [List.mem_cons, List.mem_singleton, List.not_mem_nil,
      or_false] at h
    rcases h with h | h | h | h | h | h <;>
      (unfold ObjectStoreKind.parse_url; rw [h]; rfl)
  · intro h
    simp only [List.mem_cons, List.mem_singleton, List.not_mem_nil,
      or_false] at h
    rcases h with h | h <;> (unfold ObjectStoreKind.parse_url; rw [h]; rfl)
  · intro h; unfold ObjectStoreKind.parse_url; rw [h]; rfl
  · intro h; unfold ObjectStoreKind.parse_url; rw [h]; rfl
  · intro h h1
    rw [parse_url_of_scheme_https u h]
    simp [h1]
  · intro h h1 h2
    rw [parse_url_of_scheme_https u h]
    rcases h2 with h2 | h2 <;> simp [h1, h2]
  · intro h h1 h2 h3
    rw [parse_url_of_scheme_https u h]
    simp [h1, h2, h3]
  · intro h
    exact parse_url_default u h
  · exact str_contains_append_self "unsupported url: " u.urlStr
  · rfl
  · rfl

/-- Witness for C1 at concrete inputs: a `file` URL classifies as Local and
an `https` URL on an `amazonaws.com` host classifies as S3. -/
theorem claim_C1_witness :
    ObjectStoreKind.parse_url ⟨"file", none, "/tmp/t", "file:///tmp/t"⟩ =
        .ok .Local ∧
      ObjectStoreKind.parse_url
        ⟨"https", some "bucket.s3.amazonaws.com", "/p",
          "https://bucket.s3.amazonaws.com/p"⟩ = .ok .S3 :=
  ⟨(claim_C1_parse_url_scheme_table
      ⟨"file", none, "/tmp/t", "file:///tmp/t"⟩).1 rfl,
    (claim_C1_parse_url_scheme_table
      ⟨"https", some "bucket.s3.amazonaws.com", "/p",
        "https://bucket.s3.amazonaws.com/p"⟩).2.2.2.2.2.2.1 rfl (by decide)⟩

/-- Claim C10: for an `https` URL whose host contains both `amazonaws.com`
and one of the Azure host markers, `parse_url` returns S3 because the
`amazonaws.com` check runs first; an `https` URL with no host component is
treated as having the empty host and fails with the unsupported-url error. -/
theorem claim_C10_https_host_priority : ∀ u : Url,
    (u.scheme = "https" → str_contains u.host_str "amazonaws.com" = true →
      (str_contains u.host_str "dfs.core.windows.net" = true ∨
        str_contains u.host_str "blob.core.windows.net" = true) →
      ObjectStoreKind.parse_url u = .ok .S3) ∧
    (u.scheme = "https" → u.host = none →
      u.host_str = "" ∧
      ObjectStoreKind.parse_url u =
        .error (.Generic ("unsupported url: " ++ u.urlStr))) := by
  intro u
  constructor
  · intro h h1 _
    rw [parse_url_of_scheme_https u h]
    simp [h1]
  · intro h h1
    have hs : u.host_str = "" := by simp [Url.host_str, h1]
    refine ⟨hs, ?_⟩
    rw [parse_url_of_scheme_https u h, hs]
    simp [show str_contains "" "amazonaws.com" = false from rfl,
      show str_contains "" "dfs.core.windows.net" = false from rfl,
      show str_contains "" "blob.core.windows.net" = false from rfl]

/-- Witness for C10 at concrete inputs: a host containing both markers
classifies as S3, and a hostless `https` URL fails. -/
theorem claim_C10_witness :
    ObjectStoreKind.parse_url
        ⟨"https", some "x.amazonaws.com.dfs.core.windows.net", "/",
          "https://x.amazonaws.com.dfs.core.windows.net/"⟩ = .ok .S3 ∧
      ObjectStoreKind.parse_url ⟨"https", none, "", "https:"⟩ =
        .error (.Generic "unsupported url: https:") :=
  ⟨(claim_C10_https_host_priority
      ⟨"https", some "x.amazonaws.com.dfs.core.windows.net", "/",
        "https://x.amazonaws.com.dfs.core.windows.net/"⟩).1 rfl (by decide)
      (Or.inl (by decide)),
    ((claim_C10_https_host_priority ⟨"https", none, "", "https:"⟩).2
      rfl rfl).2⟩

/-- Claim C2: `StorageOptions::new` checks `AZURE_STORAGE_ALLOW_HTTP`,
`AZURE_STORAGE_USE_HTTP`, `AWS_STORAGE_ALLOW_HTTP` in this fixed order, each
present one overwriting the single key `allow_http`, so the AWS variable wins
over the Azure ones and over any explicit `allow_http` entry of the raw bag,
and when none is set the raw bag is preserved unchanged. -/
theorem claim_C2_env_precedence : ∀ (env : String → Option String)
    (raw : List (String × String)),
    (∀ v, env "AWS_STORAGE_ALLOW_HTTP" = some v →
      hmGet (StorageOptions.new env raw) "allow_http" = some v) ∧
    (∀ v, env "AWS_STORAGE_ALLOW_HTTP" = none →
      env "AZURE_STORAGE_USE_HTTP" = some v →
      hmGet (StorageOptions.new env raw) "allow_http" = some v) ∧
    (∀ v, env "AWS_STORAGE_ALLOW_HTTP" = none →
      env "AZURE_STORAGE_USE_HTTP" = none →
      env "AZURE_STORAGE_ALLOW_HTTP" = some v →
      hmGet (StorageOptions.new env raw) "allow_http" = some v) ∧
    (env "AWS_STORAGE_ALLOW_HTTP" = none →
      env "AZURE_STORAGE_USE_HTTP" = none →
      env "AZURE_STORAGE_ALLOW_HTTP" = none →
      StorageOptions.new env raw = raw) := by
  intro env raw
  refine ⟨?_, ?_, ?_, ?_⟩
  · intro v hv
    rcases h1 : env "AZURE_STORAGE_ALLOW_HTTP" with _ | v1 <;>
      rcases h2 : env "AZURE_STORAGE_USE_HTTP" with _ | v2 <;>
      simp [StorageOptions.new, h1, h2, hv, hmGet_hmInsert_self]
  · intro v hv1 hv2
    rcases h1 : env "AZURE_STORAGE_ALLOW_HTTP" with _ | v1 <;>
      simp [StorageOptions.new, h1, hv1, hv2, hmGet_hmInsert_self]
  · intro v hv1 hv2 hv3
    simp [StorageOptions.new, hv1, hv2, hv3, hmGet_hmInsert_self]
  · intro hv1 hv2 hv3
    simp [StorageOptions.new, hv1, hv2, hv3]

/-- Witness for C2: with `AWS_STORAGE_ALLOW_HTTP=1` and
`AZURE_STORAGE_USE_HTTP=0` both set and an explicit `allow_http=false` in the
raw bag, the constructed bag carries `allow_http=1`. -/
theorem claim_C2_witness :
    hmGet
      (StorageOptions.new
        (fun s =>
          if s = "AWS_STORAGE_ALLOW_HTTP" then some "1"
          else if s = "AZURE_STORAGE_USE_HTTP" then some "0" else none)
        [("allow_http", "false")]) "allow_http" = some "1" :=
  (claim_C2_env_precedence
    (fun s =>
      if s = "AWS_STORAGE_ALLOW_HTTP" then some "1"
      else if s = "AZURE_STORAGE_USE_HTTP" then some "0" else none)
    [("allow_http", "false")]).1 "1" (by decide)

/-- Claim C3: `allow_http()` is true exactly when some key of the bag has an
ASCII-lower-cased form containing the substring `allow_http` and a value the
truthiness predicate accepts; in particular `{"ALLOW_HTTP": "true"}` gives
true and `{"allow_http": "0"}` gives false when the predicate judges `"true"`
true and `"0"` false. -/
theorem claim_C3_allow_http : ∀ (isTruthy : String → Bool)
    (bag : List (String × String)),
    (StorageOptions.allow_http isTruthy bag = true ↔
      ∃ p ∈ bag, str_contains (to_ascii_lowercase p.1) "allow_http" = true ∧
        isTruthy p.2 = true) ∧
    (isTruthy "true" = true →
      StorageOptions.allow_http isTruthy [("ALLOW_HTTP", "true")] = true) ∧
    (isTruthy "0" = false →
      StorageOptions.allow_http isTruthy [("allow_http", "0")] = false) := by
  intro isTruthy bag
  refine ⟨?_, ?_, ?_⟩
  · rw [StorageOptions.allow_http, List.any_eq_true]
    simp only [Bool.and_eq_true]
  · intro h
    have hc : str_contains (to_ascii_lowercase "ALLOW_HTTP") "allow_http"
        = true := by decide
    simp [StorageOptions.allow_http, h, hc]
  · intro h
    simp [StorageOptions.allow_http, h]

/-- Witness for C3 with the truthiness predicate that accepts exactly
`"true"`. -/
theorem claim_C3_witness :
    StorageOptions.allow_http (fun s => decide (s = "true"))
        [("ALLOW_HTTP", "true")] = true ∧
      StorageOptions.allow_http (fun s => decide (s = "true"))
        [("allow_http", "0")] = false :=
  ⟨(claim_C3_allow_http (fun s => decide (s = "true"))
      [("ALLOW_HTTP", "true")]).2.1 (by decide),
    (claim_C3_allow_http (fun s => decide (s = "true"))
      [("allow_http", "0")]).2.2 (by decide)⟩

/-- Claim C4: `url_prefix_handler` returns the client unwrapped exactly when
the URL's path normalizes to the root path (as it does for `memory:///`), and
otherwise returns a prefix decorator bound to that normalized path. -/
theorem claim_C4_url_prefix_handler : ∀ (σ : Type) (store : σ) (u : Url),
    (pathFrom u.path = rootPath →
      url_prefix_handler store u = Handle.raw store) ∧
    (pathFrom u.path ≠ rootPath →
      url_prefix_handler store u = Handle.prefixed (pathFrom u.path) store) ∧
    (url_prefix_handler store ⟨"memory", some "", "/", "memory:///"⟩ =
      Handle.raw store) := by
  intro σ store u
  refine ⟨?_, ?_, ?_⟩
  · intro h
    simp [url_prefix_handler, rootPath] at h ⊢
    simp [h]
  · intro h
    simp [url_prefix_handler, rootPath] at h ⊢
    simp [h]
  · rfl

/-- Witness for C4: a root-path URL yields the raw handle and
`memory:///a/b` yields the decorator bound to `a/b`. -/
theorem claim_C4_witness :
    url_prefix_handler (0 : Nat) ⟨"file", none, "/", "file:///"⟩ =
        Handle.raw 0 ∧
      url_prefix_handler (0 : Nat)
          ⟨"memory", some "", "/a/b", "memory:///a/b"⟩ =
        Handle.prefixed (pathFrom "/a/b") 0 :=
  ⟨(claim_C4_url_prefix_handler Nat 0 ⟨"file", none, "/", "file:///"⟩).1
      (by decide),
    (claim_C4_url_prefix_handler Nat 0
      ⟨"memory", some "", "/a/b", "memory:///a/b"⟩).2.1 (by decide)⟩

/-- Claim C5: when the requested backend's capability module is disabled,
`into_impl` fails with a `MissingFeature` error carrying both the feature
name and the offending URL; in particular a disabled Google module yields
`MissingFeature("gcs", url)`. -/
theorem claim_C5_missing_feature : ∀ (f : Features) (isTruthy : String → Bool)
    (hdfs_new : String → Option Unit) (u : Url)
    (opts : List (String × String)),
    (f.s3 = false →
      ObjectStoreKind.into_impl f isTruthy hdfs_new .S3 u opts =
        .error (.MissingFeature "s3" u.urlStr)) ∧
    (f.azure = false →
      ObjectStoreKind.into_impl f isTruthy hdfs_new .Azure u opts =
        .error (.MissingFeature "azure" u.urlStr)) ∧
    (f.gcs = false →
      ObjectStoreKind.into_impl f isTruthy hdfs_new .Google u opts =
        .error (.MissingFeature "gcs" u.urlStr)) ∧
    (f.hdfs = false →
      ObjectStoreKind.into_impl f isTruthy hdfs_new .Hdfs u opts =
        .error (.MissingFeature "hdfs" u.urlStr)) := by
  intro f isTruthy hdfs_new u opts
  refine ⟨?_, ?_, ?_, ?_⟩ <;> intro h <;>
    simp [ObjectStoreKind.into_impl, h]

/-- Witness for C5: with every capability module disabled, building the
Google backend for `gs://b/t` fails with `MissingFeature("gcs", ...)`. -/
theorem claim_C5_witness :
    ObjectStoreKind.into_impl ⟨false, false, false, false⟩ (fun _ => false)
        (fun _ => none) .Google ⟨"gs", some "b", "/t", "gs://b/t"⟩ [] =
      .error (.MissingFeature "gcs" "gs://b/t") :=
  (claim_C5_missing_feature ⟨false, false, false, false⟩ (fun _ => false)
    (fun _ => none) ⟨"gs", some "b", "/t", "gs://b/t"⟩ []).2.2.1 rfl

/-- Claim C6: every provider option view lower-cases each raw key and keeps
exactly the entries whose lower-cased key parses into the provider's typed
vocabulary, silently dropping the rest; in particular `as_s3_options` on
`{"AWS_ACCESS_KEY_ID": "k", "bogus_key": "v"}` yields only the entry derived
from `AWS_ACCESS_KEY_ID`. -/
theorem claim_C6_typed_option_views {κ : Type} [DecidableEq κ]
    (fromStr : String → Option κ) (bag : List (String × String)) (tk : κ)
    (v : String) :
    ((tk, v) ∈ typedOptions fromStr bag →
      ∃ k, (k, v) ∈ bag ∧ fromStr (to_ascii_lowercase k) = some tk) ∧
    (∀ k w, (k, w) ∈ bag → fromStr (to_ascii_lowercase k) = some tk →
      (hmGet (typedOptions fromStr bag) tk).isSome = true) ∧
    (StorageOptions.as_s3_options
        [("AWS_ACCESS_KEY_ID", "k"), ("bogus_key", "v")] =
      [(AmazonS3ConfigKey.AccessKeyId, "k")]) := by
  refine ⟨?_, ?_, ?_⟩
  · intro h
    rcases mem_foldl_hmInsert _ _ _ h with h2 | h2
    · exact absurd h2 (List.not_mem_nil _)
    · rcases List.mem_filterMap.mp h2 with ⟨p, hp, hf⟩
      rcases Option.map_eq_some'.mp hf with ⟨a, ha, hav⟩
      have h1 : a = tk := congrArg Prod.fst hav
      have h2 : p.2 = v := congrArg Prod.snd hav
      refine ⟨p.1, ?_, by rw [← h1]; exact ha⟩
      rw [← h2]
      exact hp
  · intro k w hk hf
    refine isSome_hmGet_foldl _ _ tk w (Or.inl ?_)
    exact List.mem_filterMap.mpr ⟨(k, w), hk, by simp [hf]⟩
  · rfl

/-- Witness for C6: the entry `AWS_ACCESS_KEY_ID` makes the typed key
`AccessKeyId` present in the view. -/
theorem claim_C6_witness :
    (hmGet
      (typedOptions amazonS3ConfigKeyFromStr [("AWS_ACCESS_KEY_ID", "k")])
      AmazonS3ConfigKey.AccessKeyId).isSome = true :=
  (claim_C6_typed_option_views amazonS3ConfigKeyFromStr
      [("AWS_ACCESS_KEY_ID", "k")] AmazonS3ConfigKey.AccessKeyId "k").2.1
    "AWS_ACCESS_KEY_ID" "k" (by simp) (by decide)

/-- Claim C7: on every enabled-provider build the S3 and Azure builders get
the http-allowed flag explicitly set to `allow_http()` before building while
the Google builder never gets that flag set, and all three start from
environment-derived defaults, set the explicit URL and overlay the
provider-specific typed option view. -/
theorem claim_C7_builder_flags : ∀ (f : Features) (isTruthy : String → Bool)
    (hdfs_new : String → Option Unit) (u : Url)
    (opts : List (String × String)),
    (f.s3 = true → ∃ b : BuilderState AmazonS3ConfigKey,
      ObjectStoreKind.into_impl f isTruthy hdfs_new .S3 u opts =
        .ok (url_prefix_handler (StoreImpl.s3 b opts) u) ∧
      b.from_env = true ∧ b.url = some u.urlStr ∧
      b.options = StorageOptions.as_s3_options opts ∧
      b.allow_http = some (StorageOptions.allow_http isTruthy opts)) ∧
    (f.azure = true → ∃ b : BuilderState AzureConfigKey,
      ObjectStoreKind.into_impl f isTruthy hdfs_new .Azure u opts =
        .ok (url_prefix_handler (StoreImpl.azure b) u) ∧
      b.from_env = true ∧ b.url = some u.urlStr ∧
      b.options = StorageOptions.as_azure_options opts ∧
      b.allow_http = some (StorageOptions.allow_http isTruthy opts)) ∧
    (f.gcs = true → ∃ b : BuilderState GoogleConfigKey,
      ObjectStoreKind.into_impl f isTruthy hdfs_new .Google u opts =
        .ok (url_prefix_handler (StoreImpl.google b) u) ∧
      b.from_env = true ∧ b.url = some u.urlStr ∧
      b.options = StorageOptions.as_gcs_options opts ∧
      b.allow_http = none) := by
  intro f isTruthy hdfs_new u opts
  refine ⟨?_, ?_, ?_⟩
  · intro h
    refine ⟨(((from_env_builder AmazonS3ConfigKey).with_url
        u.urlStr).try_with_options
        (StorageOptions.as_s3_options opts)).with_allow_http
        (StorageOptions.allow_http isTruthy opts), ?_, rfl, rfl, rfl, rfl⟩
    simp [ObjectStoreKind.into_impl, h]
  · intro h
    refine ⟨(((from_env_builder AzureConfigKey).with_url
        u.urlStr).try_with_options
        (StorageOptions.as_azure_options opts)).with_allow_http
        (StorageOptions.allow_http isTruthy opts), ?_, rfl, rfl, rfl, rfl⟩
    simp [ObjectStoreKind.into_impl, h]
  · intro h
    refine ⟨((from_env_builder GoogleConfigKey).with_url
        u.urlStr).try_with_options
        (StorageOptions.as_gcs_options opts), ?_, rfl, rfl, rfl, rfl⟩
    simp [ObjectStoreKind.into_impl, h]

/-- Witness for C7: with every module enabled, the S3 build for `s3://b/t`
produces a builder whose http-allowed flag is explicitly set. -/
theorem claim_C7_witness :
    ∃ b : BuilderState AmazonS3ConfigKey,
      ObjectStoreKind.into_impl ⟨true, true, true, true⟩ (fun _ => false)
          (fun _ => none) .S3 ⟨"s3", some "b", "/t", "s3://b/t"⟩ [] =
        .ok (url_prefix_handler (StoreImpl.s3 b [])
          ⟨"s3", some "b", "/t", "s3://b/t"⟩) ∧
      b.from_env = true ∧ b.url = some "s3://b/t" ∧
      b.options = StorageOptions.as_s3_options [] ∧
      b.allow_http = some (StorageOptions.allow_http (fun _ => false) []) :=
  (claim_C7_builder_flags ⟨true, true, true, true⟩ (fun _ => false)
    (fun _ => none) ⟨"s3", some "b", "/t", "s3://b/t"⟩ []).1 rfl

/-- Claim C8: prepending the bound prefix to caller paths and stripping it
from result paths are inverse transformations, and a read through the
prefix-wrapped handle of `memory:///a/b` at relative path `c` equals a read
of `/a/b/c` on the raw handle. -/
theorem claim_C8_prefix_path_inverse :
    (∀ pfx q : List String, strip_path pfx (full_path pfx q) = some q) ∧
    (∀ pfx p q : List String, strip_path pfx p = some q →
      full_path pfx q = p) ∧
    (∀ (inner : List String → Option String) (loc : List String),
      prefixed_get (pathFrom "/a/b") inner loc =
        inner (full_path (pathFrom "/a/b") loc)) ∧
    (∀ inner : List String → Option String,
      prefixed_get (pathFrom "/a/b") inner (pathFrom "c") =
        inner (pathFrom "/a/b/c")) := by
  refine ⟨?_, ?_, ?_, ?_⟩
  · intro pfx q
    induction pfx with
    | nil => simp [strip_path, full_path]
    | cons a pfx ih => simpa [strip_path, full_path] using ih
  · intro pfx
    induction pfx with
    | nil =>
      intro p q h
      simp [strip_path] at h
      simp [full_path, h]
    | cons a pfx ih =>
      intro p q h
      cases p with
      | nil => simp [strip_path] at h
      | cons b p =>
        by_cases hab : a = b
        · simp only [strip_path, hab, if_pos] at h
          have := ih p q h
          simp only [full_path] at this
          simp [full_path, List.cons_append, hab, this]
        · simp [strip_path, hab] at h
  · intro inner loc
    rfl
  · intro inner
    exact congrArg inner (by decide)

/-- Witness for C8: stripping `a/b` from `a/b/c` and re-prefixing recovers
`a/b/c`. -/
theorem claim_C8_witness :
    full_path ["a", "b"] ["c"] = ["a", "b", "c"] :=
  claim_C8_prefix_path_inverse.2.1 ["a", "b"] ["a", "b", "c"] ["c"]
    (by decide)

/-- Claim C9: when two distinct raw keys of the bag canonicalize to the same
typed S3 key, the typed view retains exactly one entry for that key, its
value comes from the bag, and the retained value is deterministic: the view
is a function of the bag alone, so two evaluations on the same bag agree. -/
theorem claim_C9_collision_determinism : ∀ (bag : List (String × String))
    (k1 v1 k2 v2 : String) (tk : AmazonS3ConfigKey),
    (k1, v1) ∈ bag → (k2, v2) ∈ bag → k1 ≠ k2 →
    amazonS3ConfigKeyFromStr (to_ascii_lowercase k1) = some tk →
    amazonS3ConfigKeyFromStr (to_ascii_lowercase k2) = some tk →
    countKey (StorageOptions.as_s3_options bag) tk = 1 ∧
    (∃ w, hmGet (StorageOptions.as_s3_options bag) tk = some w ∧
      ∃ k0, (k0, w) ∈ bag ∧
        amazonS3ConfigKeyFromStr (to_ascii_lowercase k0) = some tk) ∧
    StorageOptions.as_s3_options bag = StorageOptions.as_s3_options bag := by
  intro bag k1 v1 k2 v2 tk h1 h2 _ hf1 _
  have hmem : (tk, v1) ∈ bag.filterMap (fun p =>
      (amazonS3ConfigKeyFromStr (to_ascii_lowercase p.1)).map
        (fun k => (k, p.2))) :=
    List.mem_filterMap.mpr ⟨(k1, v1), h1, by simp [hf1]⟩
  have hsome :
      (hmGet (StorageOptions.as_s3_options bag) tk).isSome = true :=
    isSome_hmGet_foldl _ _ tk v1 (Or.inl hmem)
  rcases isSome_hmGet_exists _ _ hsome with ⟨w, hw⟩
  have hwmem : (tk, w) ∈ StorageOptions.as_s3_options bag :=
    hmGet_eq_some_mem _ _ _ hw
  have hnodup :
      ((StorageOptions.as_s3_options bag).map Prod.fst).Nodup :=
    nodup_keys_foldl _ _ (by simp)
  refine ⟨?_, ⟨w, hw, ?_⟩, rfl⟩
  · exact Nat.le_antisymm (countKey_le_one_of_nodup _ tk hnodup)
      (countKey_pos_of_mem _ tk w hwmem)
  · rcases mem_foldl_hmInsert _ _ _ hwmem with h | h
    · exact absurd h (List.not_mem_nil _)
    · rcases List.mem_filterMap.mp h with ⟨p, hp, hf⟩
      rcases Option.map_eq_some'.mp hf with ⟨a, ha, hav⟩
      have ha1 : a = tk := congrArg Prod.fst hav
      have ha2 : p.2 = w := congrArg Prod.snd hav
      refine ⟨p.1, ?_, by rw [← ha1]; exact ha⟩
      rw [← ha2]
      exact hp

/-- Witness for C9: `aws_access_key_id` and `access_key_id` collide on the
typed key `AccessKeyId`, and the view retains exactly one entry for it. -/
theorem claim_C9_witness :
    countKey
        (StorageOptions.as_s3_options
          [("aws_access_key_id", "a"), ("access_key_id", "b")])
        AmazonS3ConfigKey.AccessKeyId = 1 :=
  (claim_C9_collision_determinism
    [("aws_access_key_id", "a"), ("access_key_id", "b")]
    "aws_access_key_id" "a" "access_key_id" "b" AmazonS3ConfigKey.AccessKeyId
    (by simp) (by simp) (by decide) (by decide) (by decide)).1

end DeltaRs
